import Mathlib

/-!
Verification development for the paginated-listing scraper
(`source_code/web_scraper.py`).

The Python functions are shallowly embedded as executable Lean
definitions.  Network effects are made explicit: every definition takes
the outcome of the relevant fetches as a function argument, datetimes
are embedded as integers (Python `datetime` values form a linear order
of fixed microsecond resolution, order-embeddable in `Int`), and raised
exceptions become explicit error values.  Source identifier names are
kept wherever Lean allows.
-/

namespace WebScraper

/-- `MAX_RETRIES` from `utils/parameters.py`. -/
def MAX_RETRIES : Nat := 3

/-! ## Fetcher: `get_soup` (web_scraper.py lines 80-124)

Each attempt of `requests.get` + `raise_for_status` either yields a
document, raises a `requests.exceptions.RequestException` (transient:
timeout, connection error, HTTP error status), or raises some other
exception (not retried).  The document itself is opaque to the retry
logic; we give it an `Nat` identifier. -/

/-- Outcome of the `i`-th fetch attempt inside `get_soup`. -/
inductive AttemptOutcome
  | success (soup : Nat)
  | transient
  | nonRequest
deriving DecidableEq

/-- How a call of `get_soup` ends. -/
inductive GetSoupResult
  | soup (s : Nat)
  | raisedRequestError
  | raisedOther
  | noneResult
deriving DecidableEq

/-- The `for attempt in range(MAX_RETRIES)` loop of `get_soup`.
`i` is the loop variable `attempt`, `retry` is the separate counter
`retry_attempt`, and `delays` records each `sleep(2 ** (retry_attempt + 1))`
performed so far, in order.  Falling off the end of the `for` loop
reaches the trailing `return None` of the source. -/
def get_soup_go (attempt : Nat → AttemptOutcome) (maxRetries i retry : Nat)
    (delays : List Nat) : GetSoupResult × List Nat :=
  if i < maxRetries then
    match attempt i with
    | .success s => (.soup s, delays)
    | .nonRequest => (.raisedOther, delays)
    | .transient =>
        if retry ≤ maxRetries - 1 then
          get_soup_go attempt maxRetries (i + 1) (retry + 1)
            (delays ++ [2 ^ (retry + 1)])
        else
          (.raisedRequestError, delays)
  else
    (.noneResult, delays)
termination_by maxRetries - i

/-- `get_soup`, with the per-attempt outcomes supplied explicitly. -/
def get_soup (attempt : Nat → AttemptOutcome) : GetSoupResult × List Nat :=
  get_soup_go attempt MAX_RETRIES 0 0 []

/-! ## PolicyGate: `check_robot_txt` (web_scraper.py lines 52-77)

Everything from `urlopen` through `RobotFileParser.parse` sits inside a
single `try`; any exception lands in the `except` arm which logs and
returns `True`.  We embed the fetch-and-parse outcome as an `Except`
value: `.error` means some exception was raised along the way, `.ok`
carries the successfully parsed policy (its `can_fetch` verdict
function). -/

/-- A successfully parsed robots policy: its `can_fetch(agent, url)` verdict. -/
structure RobotsPolicy where
  can_fetch : String → String → Bool

/-- `check_robot_txt`, with the fetch-and-parse outcome supplied explicitly. -/
def check_robot_txt (fetch_result : Except Unit RobotsPolicy)
    (agent url : String) : Bool :=
  match fetch_result with
  | .error _ => true
  | .ok rp => rp.can_fetch agent url

/-! ## PageCountDiscovery: `get_total_pages` (web_scraper.py lines 127-197)

The function fetches each probe page directly with `requests.get` (not
via `get_soup`).  A fetch either raises a `RequestException`
(embedded as `.error ()`) or yields the list of numeric tokens parsed
from the `page-numbers` pagination anchors (non-numeric tokens are
already dropped by the inner `try/except ValueError`).

The `while True:` loop has no termination guarantee in the source, so
the embedding is fueled: result `none` means the loop was still running
after `fuel` iterations, `some r` means the source terminates with `r`.
The second component of the result records the pages probed, in order. -/

/-- How `get_total_pages` can raise. -/
inductive DiscErr
  | noPages   -- `RuntimeError('No valid page numbers found in ...')`
  | reqFail   -- `RuntimeError('something is not right...')`
deriving DecidableEq

/-- Python `max` over the page-number lists involved: every list handed
to it contains `0` or only naturals, so folding `max` with base `0`
agrees with Python's `max` on the nonempty lists the source uses. -/
def maxList (l : List Nat) : Nat := l.foldr max 0

/-- The `while True:` loop of `get_total_pages`.  `all_pages` starts as
`[0]` in the source; `start_page` is the current probe page. -/
def get_total_pages_go (fetch : Nat → Except Unit (List Nat)) (fuel : Nat)
    (start_page : Nat) (all_pages : List Nat) :
    Option (Except DiscErr Nat) × List Nat :=
  match fuel with
  | 0 => (none, [])
  | fuel + 1 =>
    match fetch start_page with
    | .error _ => (some (.error .reqFail), [start_page])
    | .ok pages =>
      if pages ≠ [] then
        if maxList pages = maxList all_pages then
          (some (.ok (maxList pages)), [start_page])
        else
          let r := get_total_pages_go fetch fuel (maxList pages) (all_pages ++ pages)
          (r.1, start_page :: r.2)
      else
        (some (.error .noPages), [start_page])

/-- `get_total_pages` with the source's initial accumulator `[0]`. -/
def get_total_pages (fetch : Nat → Except Unit (List Nat)) (fuel : Nat)
    (start_page : Nat) : Option (Except DiscErr Nat) × List Nat :=
  get_total_pages_go fetch fuel start_page [0]


/-! ## PageDateProbe: `check_date` (web_scraper.py lines 201-228)

Dates are embedded as integers: Python `datetime` values are a linear
order of fixed (microsecond) resolution, so they order-embed in `Int`.
`page_dates p` is the list of successfully parsed `opinion-date`
timestamps of page `p`; `check_date` returns their min and max, or
`none` when the page yields no parsable date (in which case
`binary_page_search` raises). -/

/-- Minimum of a nonempty list given as head/tail, as Python `min`. -/
def minOf (x : Int) (xs : List Int) : Int := xs.foldl min x

/-- Maximum of a nonempty list given as head/tail, as Python `max`. -/
def maxOf (x : Int) (xs : List Int) : Int := xs.foldl max x

/-- `check_date`, with the parsed per-page date lists supplied explicitly. -/
def check_date (page_dates : Int → List Int) (page_no : Int) : Option (Int × Int) :=
  match page_dates page_no with
  | [] => none
  | d :: ds => some (minOf d ds, maxOf d ds)

/-! ## BinaryPageLocator: `binary_page_search` (web_scraper.py lines 231-292)

The probe `check_date(mid)` is abstracted as `range : Int → Option (Int × Int)`
(instantiable with `check_date page_dates`).  Page numbers are `Int`,
as Python's unbounded ints (`hi = mid - 1` may go below zero).  The
`while lo <= hi` loop with mutable `lo`, `hi`, `result` becomes tail
recursion; `Python //` on nonnegative operands agrees with `Int`
division here, and the `RuntimeError` raised when a probe yields no
dates becomes `.error mid`. -/

/-- The loop of `binary_page_search`; `result` is the recorded best candidate. -/
def binary_page_search (range : Int → Option (Int × Int))
    (lo hi target_dt : Int) (result : Option Int) : Except Int Int :=
  if h : lo ≤ hi then
    match range ((lo + hi) / 2) with
    | none => .error ((lo + hi) / 2)
    | some (min_date, max_date) =>
      if min_date ≤ target_dt ∧ target_dt ≤ max_date then
        binary_page_search range lo ((lo + hi) / 2 - 1) target_dt
          (some ((lo + hi) / 2))
      else if target_dt < min_date then
        binary_page_search range ((lo + hi) / 2 + 1) hi target_dt result
      else
        binary_page_search range lo ((lo + hi) / 2 - 1) target_dt result
  else
    .ok (result.getD lo)
termination_by (hi + 1 - lo).toNat
decreasing_by all_goals omega

/-- Modelled from the spec, for the refinement claim about the no-match
fallback: the reference linear scan over pages `lo..hi` returning "the
first page whose whole range is strictly older than the target, or
`hi+1` if none".  This definition follows the spec's words, not the
source. -/
def linear_scan_insertion (range : Int → Option (Int × Int))
    (lo hi target_dt : Int) : Int :=
  if h : lo ≤ hi then
    match range lo with
    | some (_, max_date) =>
      if max_date < target_dt then lo
      else linear_scan_insertion range (lo + 1) hi target_dt
    | none => lo
  else
    hi + 1
termination_by (hi + 1 - lo).toNat
decreasing_by omega

/-! ## SpilloverCollector: `get_article_links` (web_scraper.py lines 296-370)

Each `o-opin-article` div of a page is embedded as an `ArticleTag`:
either its date tag parses (`well`, with the optional `href` of the
`opinion-news-title` anchor), or extracting/parsing its metadata raises
(`broken`).  The `article_links` set is a `Finset String`, matching the
Python `set` of hrefs. -/

/-- One listed article as the collector sees it. -/
inductive ArticleTag
  | well (pub_date : Int) (href : Option String)
  | broken
deriving DecidableEq

/-- How `get_article_links` can raise. -/
inductive CollectErr
  | noArticles      -- `RuntimeError('No valid articles found in page...')`
  | parseMetadata   -- `RuntimeError('Error while parsing the article metadata')`
  | notFound        -- `RuntimeError('No valid article links found for the given date...')`
deriving DecidableEq

/-- Outcome of the `for article in articles:` loop on one page. -/
inductive PageStep
  | ret (links : Finset String)
  | err (e : CollectErr)
  | done (links : Finset String) (found_target : Bool)
deriving DecidableEq

/-- The per-page `for article in articles:` loop of `get_article_links`.
The not-found `RuntimeError` raised when an older record is met with an
empty set sits inside the per-article `try`, so the blanket
`except Exception` rewraps it: the error that actually escapes is the
metadata-parse `RuntimeError`, hence `.err .parseMetadata` there. -/
def process_articles (target_dt : Int) :
    List ArticleTag → Finset String → Bool → PageStep
  | [], article_links, found_target => .done article_links found_target
  | .broken :: _, _, _ => .err .parseMetadata
  | .well pub_date href :: rest, article_links, found_target =>
    if target_dt < pub_date then
      process_articles target_dt rest article_links found_target
    else if pub_date = target_dt then
      process_articles target_dt rest
        (match href with
         | some h => insert h article_links
         | none => article_links) true
    else
      if article_links.Nonempty then .ret article_links
      else .err .parseMetadata

/-- The `while True:` page loop of `get_article_links`.  `pages pg_no`
is the (already fetched and parsed) article list of page `pg_no`;
`found_target` is the run-global flag of the source (initialised
`false`, never reset between pages). -/
def get_article_links (pages : Int → List ArticleTag) (target_dt : Int)
    (total_pages pg_no : Int) (article_links : Finset String)
    (found_target : Bool) : Except CollectErr (Finset String) :=
  if pages pg_no = [] then .error .noArticles
  else
    match process_articles target_dt (pages pg_no) article_links found_target with
    | .ret s => .ok s
    | .err e => .error e
    | .done s ft =>
      if h : total_pages ≤ pg_no then
        if s.Nonempty then .ok s else .error .notFound
      else if ft then
        get_article_links pages target_dt total_pages (pg_no + 1) s ft
      else
        if s.Nonempty then .ok s else .error .notFound
termination_by (total_pages - pg_no).toNat
decreasing_by omega

/-- Builds the `Int` embedding of a timestamp from a calendar day and a
time of day in minutes, to state date-versus-time claims. -/
def mkDT (day tod : Int) : Int := day * 1440 + tod

/-! ## Concrete fixtures used by individual claims -/

/-- Pagination fixture for page-count discovery: page 2 shows token 4,
page 4 shows tokens 4 and 2, page 5 shows token 5, every other page
shows token 1.  True final page: 5 (every token is ≤ 5 and page 5
surfaces 5); every page yields at least one token. -/
def c6fetch : Nat → Except Unit (List Nat) := fun p =>
  if p = 2 then .ok [4] else if p = 4 then .ok [4, 2]
  else if p = 5 then .ok [5] else .ok [1]

/-- The spillover fixture of the spec: page 2 carries records dated
Jan 9, Jan 10, Jan 10 (in listed order), page 3 carries Jan 10, Jan 9;
days are embedded as the integers 9 and 10. -/
def c3pages : Int → List ArticleTag := fun p =>
  if p = 2 then [.well 9 (some "a1"), .well 10 (some "a2"), .well 10 (some "a3")]
  else if p = 3 then [.well 10 (some "b1"), .well 9 (some "b2")]
  else []

/-- Fixture for the per-page stop rule: page 2 has one record on the
target day 10, page 3 only a newer (day 11) record, page 4 a target-day
record followed by an older one. -/
def c4pages : Int → List ArticleTag := fun p =>
  if p = 2 then [.well 10 (some "a")]
  else if p = 3 then [.well 11 (some "x")]
  else if p = 4 then [.well 10 (some "b"), .well 9 (some "c")]
  else []

/-- Fixture for date-only semantics: the single page holds one record
published on day 10 at 10:30, while the target is day 10 at 00:00. -/
def c5pages : Int → List ArticleTag := fun p =>
  if p = 1 then [.well (mkDT 10 630) (some "a")] else []

/-- Fixture for the older-record outcome with an empty set: page 2's
first record is strictly older (day 8) than the target day 10. -/
def c8empty : Int → List ArticleTag := fun p =>
  if p = 2 then [.well 8 (some "old")] else []

/-- Fixture for the older-record outcome with a non-empty set: a
target-day record, then a strictly older one, on page 2.  Page 3 is
empty, so any attempt to advance past page 2 would raise. -/
def c8nonempty : Int → List ArticleTag := fun p =>
  if p = 2 then [.well 10 (some "m"), .well 8 (some "old")] else []

/-- Monotone date-range fixture for the containment claim: page `p` has
range `(20 - 2p, 21 - 2p)`; both bounds strictly decrease with `p` and
min ≤ max on every page.  Target 15 is contained exactly on page 3. -/
def rngC2 : Int → Option (Int × Int) := fun p => some (20 - 2 * p, 21 - 2 * p)

/-- Monotone date-range fixture for the no-match fallback: same ranges
as `rngC2` but probed with target 100, which is newer than every page. -/
def rngC7 : Int → Option (Int × Int) := fun p => some (40 - 2 * p, 41 - 2 * p)

end WebScraper

deriving instance DecidableEq for Except

namespace WebScraper

/-! # Theorems -/

/-- Once the fueled discovery loop terminates, more fuel changes nothing. -/
theorem get_total_pages_go_stable (fetch : Nat → Except Unit (List Nat)) :
    ∀ (n m start_page : Nat) (all_pages : List Nat) (r : Except DiscErr Nat)
      (tr : List Nat),
      get_total_pages_go fetch n start_page all_pages = (some r, tr) → n ≤ m →
      get_total_pages_go fetch m start_page all_pages = (some r, tr) := by
  intro n
  induction n with
  | zero => intro m s a r tr h _; simp [get_total_pages_go] at h
  | succ n ih =>
    intro m s a r tr h hnm
    obtain ⟨m, rfl⟩ : ∃ m', m = m' + 1 := ⟨m - 1, by omega⟩
    rw [get_total_pages_go] at h ⊢
    cases hf : fetch s with
    | error e => rw [hf] at h; exact h
    | ok pages =>
      rw [hf] at h
      dsimp only at h ⊢
      by_cases hp : pages ≠ []
      · rw [if_pos hp] at h ⊢
        by_cases hmax : maxList pages = maxList a
        · rw [if_pos hmax] at h ⊢; exact h
        · rw [if_neg hmax] at h ⊢
          have h1 : (get_total_pages_go fetch n (maxList pages) (a ++ pages)).1 = some r :=
            congrArg Prod.fst h
          have h2 : s :: (get_total_pages_go fetch n (maxList pages) (a ++ pages)).2 = tr :=
            congrArg Prod.snd h
          have hgo : get_total_pages_go fetch n (maxList pages) (a ++ pages) =
              (some r, (get_total_pages_go fetch n (maxList pages) (a ++ pages)).2) :=
            Prod.ext h1 rfl
          rw [ih m (maxList pages) (a ++ pages) r _ hgo (by omega)]
          exact Prod.ext rfl h2
      · rw [if_neg hp] at h ⊢; exact h

/-- Every element of a list bounds `maxList` from below. -/
theorem le_maxList {l : List Nat} {x : Nat} (h : x ∈ l) : x ≤ maxList l := by
  induction l with
  | nil => simp at h
  | cons a l ih =>
    rcases List.mem_cons.mp h with rfl | h
    · exact le_max_left _ _
    · exact le_trans (ih h) (le_max_right _ _)

/-- `maxList` is bounded by any common upper bound of the elements. -/
theorem maxList_le {l : List Nat} {T : Nat} (h : ∀ x ∈ l, x ≤ T) : maxList l ≤ T := by
  induction l with
  | nil => simp [maxList]
  | cons a l ih =>
    have : maxList (a :: l) = max a (maxList l) := rfl
    rw [this]
    exact max_le (h a (by simp)) (ih fun x hx => h x (by simp [hx]))

/-- `maxList` distributes over append. -/
theorem maxList_append (l₁ l₂ : List Nat) :
    maxList (l₁ ++ l₂) = max (maxList l₁) (maxList l₂) := by
  induction l₁ with
  | nil => simp [maxList]
  | cons a l ih =>
    show max a (maxList (l ++ l₂)) = max (max a (maxList l)) (maxList l₂)
    rw [ih, max_assoc]

/-- C1: Fetcher retry contract.  With `k = 2 < MAX_RETRIES = 3` transient
failures before a success, `get_soup` succeeds after 2 retries with
backoff delays `2^1, 2^2` — that half of the claim holds.  But with a
transient failure on every attempt, `get_soup` does NOT raise a terminal
fetch error: it sleeps `2^1, 2^2, 2^3` and falls off the retry loop,
returning `None`.  The source's own comment says the exception is
propagated after exhausting retries, but `retry_attempt` always equals
the loop index, so the raising branch is unreachable: a code bug. -/
theorem get_soup_retry_exhaustion_returns_none :
    get_soup (fun i => if i < 2 then .transient else .success 7) = (.soup 7, [2, 4]) ∧
    get_soup (fun _ => .transient) = (.noneResult, [2, 4, 8]) := by
  constructor
  · simp [get_soup, get_soup_go, MAX_RETRIES]
  · simp [get_soup, get_soup_go, MAX_RETRIES]

/-- C9: policy fail-open.  Whenever fetching or parsing the robots
policy raises (`.error`), `check_robot_txt` returns `true` (allowed);
and a `false` verdict can only arise from a successfully fetched and
parsed policy that forbids the path. -/
theorem check_robot_txt_fail_open :
    (∀ (e : Unit) (agent url : String),
      check_robot_txt (.error e) agent url = true) ∧
    (∀ (fetch_result : Except Unit RobotsPolicy) (agent url : String),
      check_robot_txt fetch_result agent url = false →
      ∃ rp, fetch_result = .ok rp ∧ rp.can_fetch agent url = false) := by
  refine ⟨fun _ _ _ => rfl, fun fr agent url h => ?_⟩
  cases fr with
  | error e => simp [check_robot_txt] at h
  | ok rp => exact ⟨rp, rfl, h⟩

/-- Witness for C9 at a concrete policy and path. -/
theorem check_robot_txt_fail_open_witness :
    check_robot_txt (.error ()) "ua" "/business/" = true ∧
    ∃ rp, (Except.ok ⟨fun _ _ => false⟩ : Except Unit RobotsPolicy) = .ok rp ∧
      rp.can_fetch "ua" "/business/" = false :=
  ⟨check_robot_txt_fail_open.1 () "ua" "/business/",
   check_robot_txt_fail_open.2 (.ok ⟨fun _ _ => false⟩) "ua" "/business/" rfl⟩

/-- C10: discovery fetches bypass the retry logic.  If the fetch of the
current probe page raises a `RequestException`, `get_total_pages`
terminates at once with the runtime error, having probed exactly that
one page — no second attempt, no backoff sleep (the loop body contains
none). -/
theorem get_total_pages_no_retry (fetch : Nat → Except Unit (List Nat))
    (fuel start_page : Nat) (all_pages : List Nat)
    (hfuel : 1 ≤ fuel) (hfail : fetch start_page = .error ()) :
    get_total_pages_go fetch fuel start_page all_pages =
      (some (.error .reqFail), [start_page]) := by
  obtain ⟨f, rfl⟩ : ∃ f, fuel = f + 1 := ⟨fuel - 1, by omega⟩
  rw [get_total_pages_go, hfail]

/-- Witness for C10: a fetch that always fails, one probe, immediate error. -/
theorem get_total_pages_no_retry_witness :
    get_total_pages_go (fun _ => .error ()) 3 1 [0] =
      (some (.error .reqFail), [1]) :=
  get_total_pages_no_retry (fun _ => .error ()) 3 1 [0] (by decide) rfl

/-- The `c6fetch` fixture satisfies every hypothesis of the original
page-count-discovery claim with true final page `T = 5`: each probed
page yields at least one numeric token, every token is at most 5, and
probing page 5 yields 5 among its tokens. -/
theorem c6fetch_meets_claim_hypotheses :
    (∀ p, ∃ l, c6fetch p = .ok l ∧ l ≠ [] ∧ ∀ x ∈ l, x ≤ 5) ∧
    (∃ l, c6fetch 5 = .ok l ∧ 5 ∈ l) := by
  constructor
  · intro p
    unfold c6fetch
    split_ifs <;> exact ⟨_, rfl, by decide, by decide⟩
  · exact ⟨[5], by decide, by decide⟩

/-- C6 counterexample: on the `c6fetch` fixture (true final page 5),
discovery started at page 2 terminates after two probes returning 4,
not 5 — the hypothesis "page T surfaces T once probed" is too weak,
because the running maximum can stabilise before page T is ever probed.
(`get_total_pages_go_stable` shows fuel 10 is conclusive.) -/
theorem get_total_pages_discovery_cex :
    (get_total_pages c6fetch 10 2).1 = some (.ok 4) ∧
    (get_total_pages c6fetch 10 2).1 ≠ some (.ok 5) := by decide

/-- C6 amended: if every probed page's pagination controls surface the
true final page `T` among their tokens (the spec's "controls always
report the true final page index once probed") and every token is at
most `T`, then discovery terminates — two probes of fuel suffice — and
returns exactly `T`, from any starting probe page. -/
theorem get_total_pages_discovery (fetch : Nat → Except Unit (List Nat)) (T : Nat)
    (htok : ∀ p, ∃ l, fetch p = .ok l ∧ T ∈ l ∧ ∀ x ∈ l, x ≤ T) :
    ∀ (start_page fuel : Nat), 2 ≤ fuel →
      (get_total_pages fetch fuel start_page).1 = some (.ok T) := by
  intro s fuel hfuel
  obtain ⟨f, rfl⟩ : ∃ f, fuel = f + 2 := ⟨fuel - 2, by omega⟩
  obtain ⟨l, hl, hTl, hle⟩ := htok s
  have hml : maxList l = T := le_antisymm (maxList_le hle) (le_maxList hTl)
  have hlne : l ≠ [] := by rintro rfl; simp at hTl
  rw [get_total_pages, show f + 2 = (f + 1) + 1 from rfl, get_total_pages_go, hl]
  dsimp only
  rw [if_pos hlne]
  by_cases hT : T = 0
  · rw [if_pos (show maxList l = maxList [0] by rw [hml, hT]; decide)]
    simp [hml, hT]
  · rw [if_neg (by simp only [hml]; simp [maxList]; omega)]
    obtain ⟨l', hl', hTl', hle'⟩ := htok (maxList l)
    have hml' : maxList l' = T := le_antisymm (maxList_le hle') (le_maxList hTl')
    have hlne' : l' ≠ [] := by rintro rfl; simp at hTl'
    have happ : maxList ([0] ++ l) = T := by
      rw [maxList_append, hml]; simp [maxList]
    rw [get_total_pages_go, hl']
    dsimp only
    rw [if_pos hlne', if_pos (by rw [hml', happ])]
    simp [hml']

/-- Witness for C6 (amended) on a fixture whose controls always show
the final page 5. -/
theorem get_total_pages_discovery_witness :
    (get_total_pages (fun _ => .ok [5, 2]) 2 3).1 = some (.ok 5) :=
  get_total_pages_discovery (fun _ => .ok [5, 2]) 5
    (fun _ => ⟨[5, 2], rfl, by decide, by decide⟩) 3 2 (by decide)

/-- C3 counterexample: on the spec's spillover fixture the collector
does not return the three Jan-10 identifiers — its first record (Jan 9,
strictly older than the target with nothing collected yet) makes it
raise instead. -/
theorem get_article_links_spillover_cex :
    get_article_links c3pages 10 5 2 ∅ false ≠ .ok {"a2", "a3", "b1"} := by
  simp [get_article_links, process_articles, c3pages]

/-- C3 amended: on the spillover fixture (page 2 dated Jan 9, Jan 10,
Jan 10; page 3 dated Jan 10, Jan 9; target Jan 10; total 5 pages;
start page 2) the collector raises at the leading Jan 9 record of
page 2: the not-found `RuntimeError` is thrown with the link set still
empty, and the blanket per-article `except Exception` rewraps it as the
metadata-parse `RuntimeError`.  No identifiers are returned. -/
theorem get_article_links_spillover_fixture :
    get_article_links c3pages 10 5 2 ∅ false = .error .parseMetadata := by
  simp [get_article_links, process_articles, c3pages]

/-- C4 counterexample: on `c4pages` (target day 10, 5 total pages,
start page 2) page 3 is exhausted with no record equal to the target,
yet the collector does not stop with the accumulated `{"a"}`: because
`found_target` is a run-global flag set on page 2 and never reset, it
advances to page 4 and returns `{"a", "b"}`. -/
theorem get_article_links_stop_rule_cex :
    get_article_links c4pages 10 5 2 ∅ false = .ok {"a", "b"} ∧
    get_article_links c4pages 10 5 2 ∅ false ≠ .ok {"a"} := by
  constructor
  · simp [get_article_links, process_articles, c4pages]
    decide
  · simp [get_article_links, process_articles, c4pages]

/-- C4 amended: the stop rule fires only when the run-global
`found_target` flag is still false after exhausting a non-last page —
i.e. no record of ANY page processed so far compared equal to the
target.  In that case the collector stops there: it returns the
accumulated set if non-empty, otherwise fails not-found.  (If a record
matched on an earlier page, the collector advances instead, as the
counterexample shows.) -/
theorem get_article_links_stop_rule (pages : Int → List ArticleTag)
    (target_dt total_pages pg_no : Int) (article_links s : Finset String)
    (found_target : Bool)
    (hpage : pages pg_no ≠ [])
    (hstep : process_articles target_dt (pages pg_no) article_links found_target =
      .done s false)
    (hlast : pg_no < total_pages) :
    get_article_links pages target_dt total_pages pg_no article_links found_target =
      if s.Nonempty then .ok s else .error .notFound := by
  rw [get_article_links, if_neg hpage, hstep]
  dsimp only
  rw [dif_neg (by omega : ¬ total_pages ≤ pg_no)]
  simp

/-- Witness for C4 (amended): one page of strictly newer records, so
nothing matched anywhere; the collector stops with not-found rather
than advancing. -/
theorem get_article_links_stop_rule_witness :
    get_article_links (fun _ => [.well 11 (some "x")]) 10 5 2 ∅ false =
      if (∅ : Finset String).Nonempty then .ok ∅ else .error .notFound :=
  get_article_links_stop_rule (fun _ => [.well 11 (some "x")]) 10 5 2 ∅ ∅ false
    (by decide) (by decide) (by decide)

/-- C5 counterexample: target day 10 at 00:00 versus a record on day 10
at 10:30 — same calendar date, different times.  The claim says they
compare equal, so the collector should return `{"a"}`; instead the
record is treated as strictly newer (full-timestamp comparison), the
page is exhausted without a match, and the run fails not-found. -/
theorem date_only_comparison_cex :
    get_article_links c5pages (mkDT 10 0) 1 1 ∅ false = .error .notFound ∧
    get_article_links c5pages (mkDT 10 0) 1 1 ∅ false ≠ .ok {"a"} := by
  constructor
  · simp [get_article_links, process_articles, c5pages, mkDT]
  · simp [get_article_links, process_articles, c5pages, mkDT]

/-- C5 amended: all the date comparisons are full-timestamp
(lexicographic date-and-time) comparisons, not date-only.  A record on
the same calendar day as the target but at a strictly later time of day
is skipped as "newer"; with the roles swapped it is treated as strictly
older (raising, with an empty set, the rewrapped metadata error); and
`binary_page_search` likewise judges a same-day-different-time range as
not containing the target (here falling through to the insertion point
`lo = 2` instead of accepting page 1). -/
theorem record_comparison_uses_time_of_day (day t1 t2 : Int) (href : String)
    (h12 : t1 < t2) :
    process_articles (mkDT day t1) [.well (mkDT day t2) (some href)] ∅ false =
      .done ∅ false ∧
    process_articles (mkDT day t2) [.well (mkDT day t1) (some href)] ∅ false =
      .err .parseMetadata ∧
    binary_page_search (fun _ => some (mkDT day t2, mkDT day t2)) 1 1
      (mkDT day t1) none = .ok 2 := by
  have hlt : mkDT day t1 < mkDT day t2 := by unfold mkDT; omega
  refine ⟨?_, ?_, ?_⟩
  · rw [process_articles, if_pos hlt]
    rfl
  · rw [process_articles, if_neg (by omega), if_neg (by omega)]
    simp
  · rw [binary_page_search, dif_pos (by norm_num)]
    norm_num
    rw [if_neg (by omega), if_pos hlt, binary_page_search,
      dif_neg (by norm_num)]
    rfl

/-- Witness for C5 (amended) at day 10, times 00:00 and 10:30. -/
theorem record_comparison_uses_time_of_day_witness :
    process_articles (mkDT 10 0) [.well (mkDT 10 630) (some "a")] ∅ false =
      .done ∅ false ∧
    process_articles (mkDT 10 630) [.well (mkDT 10 0) (some "a")] ∅ false =
      .err .parseMetadata ∧
    binary_page_search (fun _ => some (mkDT 10 630, mkDT 10 630)) 1 1
      (mkDT 10 0) none = .ok 2 :=
  record_comparison_uses_time_of_day 10 0 630 "a" (by decide)

/-- C8: an older-than-target record with a non-empty accumulated set
makes the collector return the set immediately (page 3 of the fixture
is empty, so advancing would instead have raised `noArticles`), which
confirms the first half of the claim.  But with an empty set the
collector does NOT fail with the distinct not-found error: the
not-found `RuntimeError` is raised inside the per-article `try`, so the
blanket `except Exception` rewraps it as the metadata-parse error — the
error kind the claim (and the source's own not-found message) rules
out.  A code bug. -/
theorem get_article_links_older_record_outcome :
    get_article_links c8nonempty 10 5 2 ∅ false = .ok {"m"} ∧
    get_article_links c8empty 10 5 2 ∅ false = .error .parseMetadata := by
  constructor
  · simp [get_article_links, process_articles, c8nonempty]
  · simp [get_article_links, process_articles, c8empty]

/-- Loop invariant of `binary_page_search` for the containment claim:
if every page of the current window has a well-formed range, bounds are
non-increasing across the window, every containing page of the window
satisfies `P`, and either the window still holds a containing page or
the recorded candidate already satisfies `P`, then the search ends in
`.ok q` with `P q`. -/
theorem binary_page_search_invariant (range : Int → Option (Int × Int))
    (target_dt : Int) (P : Int → Prop) :
    ∀ (n : Nat) (lo hi : Int) (result : Option Int),
      (hi + 1 - lo).toNat ≤ n →
      (∀ p, lo ≤ p → p ≤ hi → (range p).isSome) →
      (∀ p q a b c d, lo ≤ p → p ≤ q → q ≤ hi → range p = some (a, b) →
        range q = some (c, d) → c ≤ a ∧ d ≤ b) →
      (∀ p, lo ≤ p → p ≤ hi →
        (∃ mn mx, range p = some (mn, mx) ∧ mn ≤ target_dt ∧ target_dt ≤ mx) →
        P p) →
      ((∃ p, lo ≤ p ∧ p ≤ hi ∧ ∃ mn mx, range p = some (mn, mx) ∧
          mn ≤ target_dt ∧ target_dt ≤ mx) ∨ ∃ c, result = some c ∧ P c) →
      ∃ q, binary_page_search range lo hi target_dt result = .ok q ∧ P q := by
  intro n
  induction n with
  | zero =>
    intro lo hi result hn hdef hmono hP hinv
    have hlh : ¬ lo ≤ hi := by omega
    rw [binary_page_search, dif_neg hlh]
    rcases hinv with ⟨p, hp1, hp2, _⟩ | ⟨c, rfl, hPc⟩
    · omega
    · exact ⟨c, rfl, hPc⟩
  | succ n ih =>
    intro lo hi result hn hdef hmono hP hinv
    by_cases hlh : lo ≤ hi
    case neg =>
      rw [binary_page_search, dif_neg hlh]
      rcases hinv with ⟨p, hp1, hp2, _⟩ | ⟨c, rfl, hPc⟩
      · omega
      · exact ⟨c, rfl, hPc⟩
    case pos =>
      rw [binary_page_search, dif_pos hlh]
      have hmid1 : lo ≤ (lo + hi) / 2 := by omega
      have hmid2 : (lo + hi) / 2 ≤ hi := by omega
      generalize hmideq : (lo + hi) / 2 = mid at hmid1 hmid2 ⊢
      obtain ⟨⟨mn, mx⟩, hr⟩ : ∃ x, range mid = some x :=
        Option.isSome_iff_exists.mp (hdef _ hmid1 hmid2)
      rw [hr]
      dsimp only
      by_cases hc : mn ≤ target_dt ∧ target_dt ≤ mx
      · rw [if_pos hc]
        exact ih lo (mid - 1) (some mid) (by omega)
          (fun p h1 h2 => hdef p h1 (by omega))
          (fun p q a b c d h1 h2 h3 ha hb => hmono p q a b c d h1 h2 (by omega) ha hb)
          (fun p h1 h2 hcont => hP p h1 (by omega) hcont)
          (Or.inr ⟨mid, rfl, hP _ hmid1 hmid2 ⟨mn, mx, hr, hc.1, hc.2⟩⟩)
      · rw [if_neg hc]
        by_cases ht : target_dt < mn
        · rw [if_pos ht]
          apply ih (mid + 1) hi result
          · clear hr hc ht hinv hdef hmono hP ih hmideq
            omega
          · intro p h1 h2
            exact hdef p (by omega) h2
          · intro p q a b c d h1 h2 h3 ha hb
            exact hmono p q a b c d (by omega) h2 h3 ha hb
          · intro p h1 h2 hcont
            exact hP p (by omega) h2 hcont
          · rcases hinv with ⟨p, hp1, hp2, mn', mx', hr', hc1', hc2'⟩ | hres
            · refine Or.inl ⟨p, ?_, hp2, mn', mx', hr', hc1', hc2'⟩
              by_contra hple
              have hple' : p ≤ mid := by omega
              have := hmono p mid mn' mx' mn mx hp1 hple' hmid2 hr' hr
              omega
            · exact Or.inr hres
        · rw [if_neg ht]
          have hmx : mx < target_dt := by
            by_contra hmx'
            exact hc ⟨by omega, by omega⟩
          apply ih lo (mid - 1) result
          · omega
          · intro p h1 h2
            exact hdef p h1 (by omega)
          · intro p q a b c d h1 h2 h3 ha hb
            exact hmono p q a b c d h1 h2 (by omega) ha hb
          · intro p h1 h2 hcont
            exact hP p h1 (by omega) hcont
          · rcases hinv with ⟨p, hp1, hp2, mn', mx', hr', hc1', hc2'⟩ | hres
            · refine Or.inl ⟨p, hp1, ?_, mn', mx', hr', hc1', hc2'⟩
              by_contra hpge
              have hpge' : mid ≤ p := by omega
              have := hmono mid p mn mx mn' mx' hmid1 hpge' hp2 hr hr'
              omega
            · exact Or.inr hres

/-- C2: binary-search containment.  For a window `[lo, hi]` whose pages
all have well-formed (min ≤ max) date ranges with both bounds
non-increasing in the page number, if some page of the window contains
the target date then `binary_page_search` terminates with `.ok q` for a
page `q` of the window whose range contains the target. -/
theorem binary_page_search_finds_containing_page
    (range : Int → Option (Int × Int)) (lo hi target_dt : Int)
    (hdef : ∀ p, lo ≤ p → p ≤ hi → (range p).isSome)
    (hmono : ∀ p q a b c d, lo ≤ p → p ≤ q → q ≤ hi → range p = some (a, b) →
      range q = some (c, d) → c ≤ a ∧ d ≤ b)
    (hex : ∃ p, lo ≤ p ∧ p ≤ hi ∧ ∃ mn mx, range p = some (mn, mx) ∧
      mn ≤ target_dt ∧ target_dt ≤ mx) :
    ∃ q, binary_page_search range lo hi target_dt none = .ok q ∧
      lo ≤ q ∧ q ≤ hi ∧ ∃ mn mx, range q = some (mn, mx) ∧
        mn ≤ target_dt ∧ target_dt ≤ mx :=
  binary_page_search_invariant range target_dt
    (fun q => lo ≤ q ∧ q ≤ hi ∧ ∃ mn mx, range q = some (mn, mx) ∧
      mn ≤ target_dt ∧ target_dt ≤ mx)
    (hi + 1 - lo).toNat lo hi none le_rfl hdef hmono
    (fun p h1 h2 hcont => ⟨h1, h2, hcont⟩) (Or.inl hex)

/-- Witness for C2 on the five-page monotone fixture `rngC2` with
target 15, contained exactly on page 3. -/
theorem binary_page_search_finds_containing_page_witness :
    ∃ q, binary_page_search rngC2 1 5 15 none = .ok q ∧
      1 ≤ q ∧ q ≤ 5 ∧ ∃ mn mx, rngC2 q = some (mn, mx) ∧
        mn ≤ 15 ∧ 15 ≤ mx :=
  binary_page_search_finds_containing_page rngC2 1 5 15
    (fun p _ _ => by simp [rngC2])
    (fun p q a b c d _ hpq _ ha hb => by
      simp only [rngC2, Option.some.injEq, Prod.mk.injEq] at ha hb
      omega)
    ⟨3, by norm_num, by norm_num, 14, 15, by norm_num [rngC2], by norm_num, by norm_num⟩

/-- Characterisation of the reference linear scan: its value `B` lies
in `[lo, hi+1]`, no page before `B` has its whole range strictly older
than the target, and if `B ≤ hi` then page `B` does. -/
theorem linear_scan_insertion_spec (range : Int → Option (Int × Int))
    (target_dt : Int) :
    ∀ (n : Nat) (lo hi : Int), (hi + 1 - lo).toNat ≤ n → lo ≤ hi + 1 →
      (∀ p, lo ≤ p → p ≤ hi → (range p).isSome) →
      lo ≤ linear_scan_insertion range lo hi target_dt ∧
      linear_scan_insertion range lo hi target_dt ≤ hi + 1 ∧
      (∀ p mn mx, lo ≤ p → p < linear_scan_insertion range lo hi target_dt →
        range p = some (mn, mx) → ¬ mx < target_dt) ∧
      (linear_scan_insertion range lo hi target_dt ≤ hi →
        ∃ mn mx, range (linear_scan_insertion range lo hi target_dt) =
          some (mn, mx) ∧ mx < target_dt) := by
  intro n
  induction n with
  | zero =>
    intro lo hi hn hwin hdef
    have hlh : ¬ lo ≤ hi := by omega
    rw [linear_scan_insertion, dif_neg hlh]
    exact ⟨by omega, le_refl _, fun p mn mx h1 h2 _ => by omega,
      fun hcontra => by omega⟩
  | succ n ih =>
    intro lo hi hn hwin hdef
    by_cases hlh : lo ≤ hi
    case neg =>
      rw [linear_scan_insertion, dif_neg hlh]
      exact ⟨by omega, le_refl _, fun p mn mx h1 h2 _ => by omega,
        fun hcontra => by omega⟩
    case pos =>
      obtain ⟨⟨mn0, mx0⟩, hr0⟩ : ∃ x, range lo = some x :=
        Option.isSome_iff_exists.mp (hdef _ le_rfl hlh)
      rw [linear_scan_insertion, dif_pos hlh, hr0]
      dsimp only
      by_cases hx : mx0 < target_dt
      · rw [if_pos hx]
        refine ⟨le_rfl, by omega, fun p mn mx h1 h2 _ => by omega,
          fun _ => ⟨mn0, mx0, hr0, hx⟩⟩
      · rw [if_neg hx]
        obtain ⟨ih1, ih2, ih3, ih4⟩ := ih (lo + 1) hi (by omega) (by omega)
          (fun p h1 h2 => hdef p (by omega) h2)
        refine ⟨by omega, ih2, ?_, ih4⟩
        intro p mn mx h1 h2 hrp
        rcases eq_or_lt_of_le h1 with rfl | h1'
        · rw [hr0] at hrp
          obtain ⟨rfl, rfl⟩ : mn0 = mn ∧ mx0 = mx := by
            simpa using hrp
          exact hx
        · exact ih3 p mn mx (by omega) h2 hrp

/-- Loop invariant of `binary_page_search` for the fallback claim: if
`B ∈ [lo, hi+1]`, every window page before `B` is entirely newer than
the target (`target < min`), and every window page from `B` on is
entirely older (`max < target`), then no probe ever records a
candidate and the search ends exactly at `.ok B` (the final `lo`). -/
theorem binary_page_search_fallback_invariant (range : Int → Option (Int × Int))
    (target_dt : Int) :
    ∀ (n : Nat) (lo hi B : Int),
      (hi + 1 - lo).toNat ≤ n →
      lo ≤ B → B ≤ hi + 1 →
      (∀ p, lo ≤ p → p ≤ hi → (range p).isSome) →
      (∀ p mn mx, lo ≤ p → p ≤ hi → range p = some (mn, mx) → mn ≤ mx) →
      (∀ p mn mx, lo ≤ p → p < B → range p = some (mn, mx) → target_dt < mn) →
      (∀ p mn mx, B ≤ p → p ≤ hi → range p = some (mn, mx) → mx < target_dt) →
      binary_page_search range lo hi target_dt none = .ok B := by
  intro n
  induction n with
  | zero =>
    intro lo hi B hn hB1 hB2 hdef hwf hnew hold
    have hlh : ¬ lo ≤ hi := by omega
    rw [binary_page_search, dif_neg hlh]
    have : B = lo := by omega
    rw [this]
    rfl
  | succ n ih =>
    intro lo hi B hn hB1 hB2 hdef hwf hnew hold
    by_cases hlh : lo ≤ hi
    case neg =>
      rw [binary_page_search, dif_neg hlh]
      have : B = lo := by omega
      rw [this]
      rfl
    case pos =>
      rw [binary_page_search, dif_pos hlh]
      have hmid1 : lo ≤ (lo + hi) / 2 := by omega
      have hmid2 : (lo + hi) / 2 ≤ hi := by omega
      generalize hmideq : (lo + hi) / 2 = mid at hmid1 hmid2 ⊢
      obtain ⟨⟨mn, mx⟩, hr⟩ : ∃ x, range mid = some x :=
        Option.isSome_iff_exists.mp (hdef _ hmid1 hmid2)
      rw [hr]
      dsimp only
      have hwfmid : mn ≤ mx := hwf mid mn mx hmid1 hmid2 hr
      by_cases hc : mn ≤ target_dt ∧ target_dt ≤ mx
      · exfalso
        by_cases hBm : B ≤ mid
        · have := hold mid mn mx hBm hmid2 hr
          omega
        · have := hnew mid mn mx hmid1 (by omega) hr
          omega
      · rw [if_neg hc]
        by_cases ht : target_dt < mn
        · rw [if_pos ht]
          have hBge : mid + 1 ≤ B := by
            by_contra hBle
            have := hold mid mn mx (by omega) hmid2 hr
            omega
          apply ih (mid + 1) hi B
          · clear hr hc ht hdef hwf hnew hold ih hmideq
            omega
          · exact hBge
          · exact hB2
          · intro p h1 h2
            exact hdef p (by omega) h2
          · intro p mn' mx' h1 h2 hrp
            exact hwf p mn' mx' (by omega) h2 hrp
          · intro p mn' mx' h1 h2 hrp
            exact hnew p mn' mx' (by omega) h2 hrp
          · intro p mn' mx' h1 h2 hrp
            exact hold p mn' mx' h1 h2 hrp
        · rw [if_neg ht]
          have hmx : mx < target_dt := by
            by_contra hmx'
            exact hc ⟨by omega, by omega⟩
          have hBle : B ≤ mid := by
            by_contra hBgt
            have := hnew mid mn mx hmid1 (by omega) hr
            omega
          apply ih lo (mid - 1) B
          · clear hr hc ht hdef hwf hnew hold ih hmideq
            omega
          · exact hB1
          · omega
          · intro p h1 h2
            exact hdef p h1 (by omega)
          · intro p mn' mx' h1 h2 hrp
            exact hwf p mn' mx' h1 (by omega) hrp
          · intro p mn' mx' h1 h2 hrp
            exact hnew p mn' mx' h1 h2 hrp
          · intro p mn' mx' h1 h2 hrp
            exact hold p mn' mx' h1 (by omega) hrp

/-- C7: no-match fallback refinement.  Over a window `[lo, hi]` of
well-formed, non-increasing date ranges in which no page contains the
target, `binary_page_search` terminates returning its final `lo`, and
that value is exactly the insertion boundary computed by the reference
linear scan (`linear_scan_insertion`, modelled from the spec): the
first page of the window whose whole range is strictly older than the
target, or `hi + 1` if none. -/
theorem binary_page_search_no_match_eq_linear_scan
    (range : Int → Option (Int × Int)) (lo hi target_dt : Int)
    (hwin : lo ≤ hi + 1)
    (hdef : ∀ p, lo ≤ p → p ≤ hi → (range p).isSome)
    (hwf : ∀ p mn mx, lo ≤ p → p ≤ hi → range p = some (mn, mx) → mn ≤ mx)
    (hmono : ∀ p q a b c d, lo ≤ p → p ≤ q → q ≤ hi → range p = some (a, b) →
      range q = some (c, d) → c ≤ a ∧ d ≤ b)
    (hnone : ∀ p mn mx, lo ≤ p → p ≤ hi → range p = some (mn, mx) →
      ¬ (mn ≤ target_dt ∧ target_dt ≤ mx)) :
    binary_page_search range lo hi target_dt none =
      .ok (linear_scan_insertion range lo hi target_dt) := by
  obtain ⟨hge, hle, hfirst, hhit⟩ :=
    linear_scan_insertion_spec range target_dt (hi + 1 - lo).toNat lo hi
      le_rfl hwin hdef
  apply binary_page_search_fallback_invariant range target_dt
    (hi + 1 - lo).toNat lo hi _ le_rfl hge hle hdef hwf
  · intro p mn mx h1 h2 hrp
    have hp2 : p ≤ hi := by omega
    have hnm := hnone p mn mx h1 hp2 hrp
    have := hfirst p mn mx h1 h2 hrp
    omega
  · intro p mn mx h1 h2 hrp
    obtain ⟨mnB, mxB, hrB, hxB⟩ := hhit (by omega)
    have := hmono _ p mnB mxB mn mx (by omega) h1 h2 hrB hrp
    omega

/-- Witness for C7 on the five-page monotone fixture `rngC7` with
target 100, newer than every page: the search returns the linear-scan
insertion boundary (page 1). -/
theorem binary_page_search_no_match_eq_linear_scan_witness :
    binary_page_search rngC7 1 5 100 none =
      .ok (linear_scan_insertion rngC7 1 5 100) ∧
    linear_scan_insertion rngC7 1 5 100 = 1 :=
  ⟨binary_page_search_no_match_eq_linear_scan rngC7 1 5 100 (by norm_num)
    (fun p _ _ => by simp [rngC7])
    (fun p mn mx _ _ h => by
      simp only [rngC7, Option.some.injEq, Prod.mk.injEq] at h
      omega)
    (fun p q a b c d _ hpq _ ha hb => by
      simp only [rngC7, Option.some.injEq, Prod.mk.injEq] at ha hb
      omega)
    (fun p mn mx h1 h2 h => by
      simp only [rngC7, Option.some.injEq, Prod.mk.injEq] at h
      omega),
   by simp [linear_scan_insertion, rngC7]⟩

end WebScraper
